import Mathlib

/-!
# 6502-Emu: the instruction core of `src/cpu.c`

A shallow embedding of the register file, the status-flag accessors, the
memory interface and the opcode handlers of `src/cpu.c`, followed by theorems
about them.

Conventions of the embedding

* A C object of type `int8_t` / `int16_t` is a mathematical integer together
  with the proof that it lies in the range of the type.  Every implicit C
  conversion into such a type is an explicit `ofInt`, which wraps modulo
  `2 ^ 8` / `2 ^ 16` (the behaviour of gcc and clang).
* Expressions are evaluated in C `int` (32 bits, two's complement), after the
  integer promotions.  `+` and `-` are the integer operations (no expression
  of the program comes near `2 ^ 31`); `&`, `|`, `^`, `~` act on the 32-bit
  two's-complement pattern; `<<` multiplies and `>>` divides (flooring) by a
  power of two.
* `assert` that fails, and an array access outside the allocated block, stop
  the handler with a `Fault`; a handler therefore returns `Except Fault CPU`.
-/

namespace Emu6502

/-! ## Machine integers -/

/-- Wrap an integer into the range of `int8_t`, `-128 .. 127`. -/
def wrap8 (x : Int) : Int := (x + 128) % 256 - 128

/-- Wrap an integer into the range of `int16_t`, `-32768 .. 32767`. -/
def wrap16 (x : Int) : Int := (x + 32768) % 65536 - 32768

/-- The C type `int8_t`. -/
structure int8_t where
  val : Int
  lo : -128 ≤ val
  hi : val ≤ 127
deriving DecidableEq

/-- The C type `int16_t`. -/
structure int16_t where
  val : Int
  lo : -32768 ≤ val
  hi : val ≤ 32767
deriving DecidableEq

/-- Conversion of an `int` to `int8_t`. -/
def int8_t.ofInt (x : Int) : int8_t :=
  ⟨wrap8 x, by unfold wrap8; omega, by unfold wrap8; omega⟩

/-- Conversion of an `int` to `int16_t`. -/
def int16_t.ofInt (x : Int) : int16_t :=
  ⟨wrap16 x, by unfold wrap16; omega, by unfold wrap16; omega⟩

instance (n : Nat) : OfNat int8_t n := ⟨int8_t.ofInt n⟩

instance (n : Nat) : OfNat int16_t n := ⟨int16_t.ofInt n⟩

/-- The 32-bit pattern of a C `int`. -/
def toU32 (x : Int) : Nat := (x % 4294967296).toNat

/-- The C `int` with a given 32-bit pattern. -/
def ofU32 (n : Nat) : Int :=
  if n < 2147483648 then (n : Int) else (n : Int) - 4294967296

/-- C `x & y` on `int`. -/
def band (x y : Int) : Int := ofU32 (toU32 x &&& toU32 y)

/-- C `x | y` on `int`. -/
def bor (x y : Int) : Int := ofU32 (toU32 x ||| toU32 y)

/-- C `x ^ y` on `int`. -/
def bxor (x y : Int) : Int := ofU32 (toU32 x ^^^ toU32 y)

/-- C `~x` on `int`. -/
def bnot (x : Int) : Int := ofU32 (toU32 x ^^^ 4294967295)

/-- C `x << n` on `int`. -/
def shl (x n : Int) : Int := x * 2 ^ n.toNat

/-- C `x >> n` on `int` (arithmetic shift). -/
def shr (x n : Int) : Int := x / 2 ^ n.toNat

/-! ## Data model -/

/-- The ways a handler can stop without returning. -/
inductive Fault where
  | assertion
  | outOfBounds
deriving DecidableEq

/-- Source: `enum reg`, the 8 bit registers. -/
inductive REG where
  | STATUS | STACK | ACCUM | IND_X | IND_Y
deriving DecidableEq

/-- Source: `enum flag`, the bits of the status register, in order. -/
inductive FLAG where
  | C | Z | I | D | B | NOT_USED_FLAG | V | S
deriving DecidableEq

/-- The integer value of a `FLAG` enumerator. -/
def FLAG.toInt : FLAG → Int
  | .C => 0 | .Z => 1 | .I => 2 | .D => 3
  | .B => 4 | .NOT_USED_FLAG => 5 | .V => 6 | .S => 7

/-- Source: `MODE`, the addressing modes. -/
inductive MODE where
  | Immediate | Absolute | ZeroPageAbsolute | Implied | Accumulator
  | Indexed | ZeroPageIndexed | Indirect | PreIndexedIndirect
  | PostIndexedIndirect | Relative
deriving DecidableEq

/-- Source: `struct op_code_info`. -/
structure OP_CODE_INFO where
  operand : int8_t
  address : int16_t
  mode : MODE

/-- Source: `struct cpu`. `regs` is the block of five `int8_t` indexed by
`REG`; `addressSpace` is the block of 65536 `int8_t`, of which entry `i` is
`addressSpace i` for `i < 65536`. -/
structure CPU where
  PC : int16_t
  regs : REG → int8_t
  addressSpace : Nat → int8_t

/-! ## Register file and status flags -/

/-- Source: `setRegBit`. -/
def setRegBit (c : CPU) (name : REG) (bit : int8_t) (val : int8_t) :
    Except Fault CPU :=
  if ¬ (bit.val > -1 ∧ bit.val < 8) then .error .assertion
  else if ¬ (val.val = 0 ∨ val.val = 1) then .error .assertion
  else .ok { c with
    regs := Function.update c.regs name
      (int8_t.ofInt (bor (band (c.regs name).val (bnot (shl 1 bit.val)))
                         (shl val.val bit.val))) }

/-- Source: `setRegByte`. -/
def setRegByte (c : CPU) (name : REG) (val : int8_t) : CPU :=
  { c with regs := Function.update c.regs name val }

/-- Source: `getRegByte`. -/
def getRegByte (c : CPU) (name : REG) : int8_t := c.regs name

/-- Source: `setFlag`. The parameter `val` is a C `int`; it is converted to
`int8_t` in the call of `setRegBit`. -/
def setFlag (c : CPU) (name : FLAG) (val : Int) : Except Fault CPU :=
  if name = .NOT_USED_FLAG then .error .assertion
  else setRegBit c .STATUS (int8_t.ofInt name.toInt) (int8_t.ofInt val)

/-- Source: `getFlag`. -/
def getFlag (c : CPU) (name : FLAG) : Except Fault int8_t :=
  if name = .NOT_USED_FLAG then .error .assertion
  else .ok (int8_t.ofInt
    (if band (c.regs .STATUS).val (shl 1 name.toInt) ≠ 0 then 1 else 0))

/-! ## Memory interface -/

/-- Source: `read`. The index is the signed `addr`. -/
def read (c : CPU) (addr : int16_t) : Except Fault int8_t :=
  if 0 ≤ addr.val ∧ addr.val < 65536 then .ok (c.addressSpace addr.val.toNat)
  else .error .outOfBounds

/-- Source: `write`. The index is the signed `addr`. -/
def write (c : CPU) (addr : int16_t) (val : int8_t) : Except Fault CPU :=
  if 0 ≤ addr.val ∧ addr.val < 65536 then
    .ok { c with
      addressSpace := Function.update c.addressSpace addr.val.toNat val }
  else .error .outOfBounds

/-! ## Construction -/

/-- Source: `getCPU`. `malloc` does not initialise the storage it returns: the
contents found there are the parameter `fresh`. -/
def getCPU (fresh : CPU) : Except Fault CPU := setRegBit fresh .STATUS 5 1

/-! ## Flag helpers -/

/-- Source: `setCarry`. -/
def setCarry (c : CPU) (val : int16_t) : Except Fault CPU :=
  let carry : int8_t := int8_t.ofInt (if val.val > 0xFF then 1 else 0)
  setFlag c .V carry.val

/-- Source: `setCarryBCD`. -/
def setCarryBCD (c : CPU) (val : int16_t) : Except Fault CPU :=
  let carry : int8_t := int8_t.ofInt (if val.val > 0x99 then 1 else 0)
  setFlag c .V carry.val

/-- Source: `setOverflow`. -/
def setOverflow (c : CPU) (a b val : int8_t) : Except Fault CPU :=
  let overflow : int8_t := int8_t.ofInt
    (if band (bxor a.val b.val) 0x80 = 0 ∧ band (bxor a.val val.val) 0x80 ≠ 0
     then 1 else 0)
  setFlag c .V overflow.val

/-- Source: `setSign`. -/
def setSign (c : CPU) (val : int8_t) : Except Fault CPU :=
  let sign : int8_t := int8_t.ofInt (if band val.val 0x80 ≠ 0 then 1 else 0)
  setFlag c .S sign.val

/-- Source: `setZero`. -/
def setZero (c : CPU) (val : int8_t) : Except Fault CPU :=
  let isZero : int8_t := int8_t.ofInt (if val.val ≠ 0 then 1 else 0)
  setFlag c .Z isZero.val

/-! ## Stack -/

/-- Source: `PUSH`, whose body is empty. -/
def PUSH (c : CPU) (_o : OP_CODE_INFO) (_operand : int8_t) : CPU := c

/-! ## Opcode handlers -/

/-- Source: `ADC`, add with carry. -/
def ADC (c : CPU) (o : OP_CODE_INFO) : Except Fault CPU := do
  let carry ← getFlag c .C
  let accum := getRegByte c .ACCUM
  let operand := o.operand
  let sum := int16_t.ofInt (carry.val + accum.val + operand.val)
  let c ← setZero c (int8_t.ofInt sum.val)
  let d ← getFlag c .D
  if d.val ≠ 0 then
    let sum :=
      if band accum.val 0xF + band operand.val 0xF + carry.val > 9
      then int16_t.ofInt (sum.val + 6) else sum
    let c ← setSign c (int8_t.ofInt sum.val)
    let c ← setOverflow c accum operand (int8_t.ofInt sum.val)
    let sum := int16_t.ofInt (sum.val + (if sum.val > 0x99 then 96 else 0))
    let c ← setCarryBCD c sum
    pure (setRegByte c .ACCUM (int8_t.ofInt sum.val))
  else
    let c ← setSign c (int8_t.ofInt sum.val)
    let c ← setOverflow c accum operand (int8_t.ofInt sum.val)
    let c ← setCarry c sum
    pure (setRegByte c .ACCUM (int8_t.ofInt sum.val))

/-- Source: `AND`. -/
def AND (c : CPU) (o : OP_CODE_INFO) : Except Fault CPU := do
  let accum := getRegByte c .ACCUM
  let operand := o.operand
  let res := int8_t.ofInt (band accum.val operand.val)
  let c ← setSign c res
  let c ← setZero c res
  pure (setRegByte c .ACCUM res)

/-- Source: `ASL`, arithmetic shift left. -/
def ASL (c : CPU) (o : OP_CODE_INFO) : Except Fault CPU := do
  let operand := o.operand
  let res := int16_t.ofInt (shl operand.val 1)
  let c ← setCarry c res
  let c ← setSign c (int8_t.ofInt res.val)
  let c ← setZero c (int8_t.ofInt res.val)
  if o.mode = .Accumulator then
    pure (setRegByte c .ACCUM (int8_t.ofInt res.val))
  else
    write c o.address (int8_t.ofInt res.val)

/-- Source: `BCC`, branch if carry clear. -/
def BCC (c : CPU) (o : OP_CODE_INFO) : Except Fault CPU := do
  let f ← getFlag c .C
  if ¬ (f.val ≠ 0) then pure { c with PC := int16_t.ofInt o.operand.val }
  else pure c

/-- Source: `BCS`, branch if carry set. -/
def BCS (c : CPU) (o : OP_CODE_INFO) : Except Fault CPU := do
  let f ← getFlag c .C
  if f.val ≠ 0 then pure { c with PC := int16_t.ofInt o.operand.val }
  else pure c

/-- Source: `BEQ`, branch if equals. -/
def BEQ (c : CPU) (o : OP_CODE_INFO) : Except Fault CPU := do
  let f ← getFlag c .Z
  if f.val ≠ 0 then pure { c with PC := int16_t.ofInt o.operand.val }
  else pure c

/-- Source: `BIT`, test bits in memory with accumulator. -/
def BIT (c : CPU) (o : OP_CODE_INFO) : Except Fault CPU := do
  let src := int8_t.ofInt ((getRegByte c .ACCUM).val - o.address.val)
  let accum := getRegByte c .ACCUM
  let c ← setFlag c .V (band src.val 0x40)
  let c ← setFlag c .S src.val
  setFlag c .Z (band src.val accum.val)

/-- Source: `BMI`, branch if result minus. -/
def BMI (c : CPU) (o : OP_CODE_INFO) : Except Fault CPU := do
  let f ← getFlag c .S
  if f.val ≠ 0 then pure { c with PC := o.address }
  else pure c

/-- Source: `BNE`, branch if not equals. -/
def BNE (c : CPU) (o : OP_CODE_INFO) : Except Fault CPU := do
  let f ← getFlag c .Z
  if ¬ (f.val ≠ 0) then pure { c with PC := o.address }
  else pure c

/-- Source: `BPL`, branch if result plus. -/
def BPL (c : CPU) (o : OP_CODE_INFO) : Except Fault CPU := do
  let f ← getFlag c .S
  if ¬ (f.val ≠ 0) then pure { c with PC := o.address }
  else pure c

/-- Source: `BVC`, branch if overflow clear. -/
def BVC (c : CPU) (o : OP_CODE_INFO) : Except Fault CPU := do
  let f ← getFlag c .V
  if ¬ (f.val ≠ 0) then pure { c with PC := o.address }
  else pure c

/-- Source: `BVS`, branch on overflow set. -/
def BVS (c : CPU) (o : OP_CODE_INFO) : Except Fault CPU := do
  let f ← getFlag c .V
  if f.val ≠ 0 then pure { c with PC := o.address }
  else pure c

/-- Source: `CLC`. -/
def CLC (c : CPU) (_o : OP_CODE_INFO) : Except Fault CPU := setFlag c .C 0

/-- Source: `CLD`. -/
def CLD (c : CPU) (_o : OP_CODE_INFO) : Except Fault CPU := setFlag c .D 0

/-- Source: `CLI`. -/
def CLI (c : CPU) (_o : OP_CODE_INFO) : Except Fault CPU := setFlag c .I 0

/-- Source: `CLV`. -/
def CLV (c : CPU) (_o : OP_CODE_INFO) : Except Fault CPU := setFlag c .V 0

/-- The common body of `CMP`, `CPX` and `CPY`, which differ in the register
read. -/
def compareReg (r : REG) (c : CPU) (o : OP_CODE_INFO) : Except Fault CPU := do
  let src := int8_t.ofInt ((getRegByte c r).val - o.address.val)
  let c ← setFlag c .C (if src.val < 0x100 then 1 else 0)
  let c ← setFlag c .S (band src.val 0x40)
  let src := int8_t.ofInt (band src.val 0xff)
  setFlag c .Z src.val

/-- Source: `CMP`, compare memory and accumulator. -/
def CMP (c : CPU) (o : OP_CODE_INFO) : Except Fault CPU := compareReg .ACCUM c o

/-- Source: `CPX`, compare memory and index x. -/
def CPX (c : CPU) (o : OP_CODE_INFO) : Except Fault CPU := compareReg .IND_X c o

/-- Source: `CPY`, compare memory and index y. -/
def CPY (c : CPU) (o : OP_CODE_INFO) : Except Fault CPU := compareReg .IND_Y c o

/-- Source: `JMP`. -/
def JMP (c : CPU) (o : OP_CODE_INFO) : Except Fault CPU :=
  pure { c with PC := int16_t.ofInt o.operand.val }

/-- Source: `JSR`, jump to subroutine. -/
def JSR (c : CPU) (o : OP_CODE_INFO) : Except Fault CPU :=
  let c := { c with PC := int16_t.ofInt (c.PC.val - 1) }
  let c := PUSH c o (int8_t.ofInt (band (shr c.PC.val 8) 0xFF))
  let c := PUSH c o (int8_t.ofInt (band c.PC.val 0xFF))
  pure { c with PC := int16_t.ofInt o.operand.val }

/-- Source: `LDA`, load value into accumulator. -/
def LDA (c : CPU) (o : OP_CODE_INFO) : Except Fault CPU := do
  let c ← setSign c o.operand
  let c ← setZero c o.operand
  pure (setRegByte c .ACCUM o.operand)

/-- Source: `LDX`, load value into x reg. -/
def LDX (c : CPU) (o : OP_CODE_INFO) : Except Fault CPU := do
  let c ← setSign c o.operand
  let c ← setZero c o.operand
  pure (setRegByte c .IND_X o.operand)

/-- Source: `LDY`, load value into y reg. -/
def LDY (c : CPU) (o : OP_CODE_INFO) : Except Fault CPU := do
  let c ← setSign c o.operand
  let c ← setZero c o.operand
  pure (setRegByte c .IND_Y o.operand)

/-- Source: `LSR`, logical shift right. -/
def LSR (c : CPU) (o : OP_CODE_INFO) : Except Fault CPU := do
  let c ← setFlag c .C (band o.operand.val 0x01)
  let shifted := int8_t.ofInt (shr o.operand.val 1)
  let c ← setSign c shifted
  let c ← setZero c shifted
  if o.mode = .Accumulator then
    pure (setRegByte c .ACCUM shifted)
  else
    write c o.address shifted

/-! ## Vocabulary of the statements -/

/-- Bit `k` of an integer in two's complement, as `0` or `1`. -/
def bitAt (x : Int) (k : Nat) : Int := (x / 2 ^ k) % 2

/-- The unsigned reading, `0 .. 255`, of a byte. -/
def int8_t.toU8 (x : int8_t) : Int := x.val % 256

/-- Bit `k` of the Status register. -/
def statusBit (c : CPU) (k : Nat) : Int := bitAt (c.regs .STATUS).val k

/-- A state given by its program counter, its five registers (as unsigned
bytes) and one value for every memory byte. -/
def mkCPU (pc status stack accum x y fill : Int) : CPU where
  PC := int16_t.ofInt pc
  regs := fun r =>
    match r with
    | .STATUS => int8_t.ofInt status
    | .STACK => int8_t.ofInt stack
    | .ACCUM => int8_t.ofInt accum
    | .IND_X => int8_t.ofInt x
    | .IND_Y => int8_t.ofInt y
  addressSpace := fun _ => int8_t.ofInt fill

/-- A resolved operand given by its operand byte, its address and its mode. -/
def mkOp (operand address : Int) (mode : MODE) : OP_CODE_INFO where
  operand := int8_t.ofInt operand
  address := int16_t.ofInt address
  mode := mode

/-- The unsigned reading of a register after a handler, when the handler
returned. -/
def regAfter (r : Except Fault CPU) (name : REG) : Option Int :=
  match r with
  | .ok c => some (c.regs name).toU8
  | .error _ => none

/-- The value of a Status bit after a handler, when the handler returned. -/
def bitAfter (r : Except Fault CPU) (k : Nat) : Option Int :=
  match r with
  | .ok c => some (statusBit c k)
  | .error _ => none

/-- The program counter after a handler, when the handler returned. -/
def pcAfter (r : Except Fault CPU) : Option Int :=
  match r with
  | .ok c => some c.PC.val
  | .error _ => none

/-- The unsigned reading of the memory byte at index `i` after a handler, when
the handler returned. -/
def memAfter (r : Except Fault CPU) (i : Nat) : Option Int :=
  match r with
  | .ok c => some (c.addressSpace i).toU8
  | .error _ => none

/-- The unsigned reading of a byte that was read, when the read returned. -/
def byteRead (r : Except Fault int8_t) : Option Int :=
  match r with
  | .ok b => some b.toU8
  | .error _ => none

/-- The opcode handlers of the source, by name. -/
inductive Opcode where
  | ADC | AND | ASL | BCC | BCS | BEQ | BIT | BMI | BNE | BPL | BVC | BVS
  | CLC | CLD | CLI | CLV | CMP | CPX | CPY | JMP | JSR | LDA | LDX | LDY | LSR
deriving DecidableEq

/-- The handler that an opcode names. -/
def Opcode.exec : Opcode → CPU → OP_CODE_INFO → Except Fault CPU
  | .ADC => Emu6502.ADC | .AND => Emu6502.AND | .ASL => Emu6502.ASL
  | .BCC => Emu6502.BCC | .BCS => Emu6502.BCS | .BEQ => Emu6502.BEQ
  | .BIT => Emu6502.BIT | .BMI => Emu6502.BMI | .BNE => Emu6502.BNE
  | .BPL => Emu6502.BPL | .BVC => Emu6502.BVC | .BVS => Emu6502.BVS
  | .CLC => Emu6502.CLC | .CLD => Emu6502.CLD | .CLI => Emu6502.CLI
  | .CLV => Emu6502.CLV | .CMP => Emu6502.CMP | .CPX => Emu6502.CPX
  | .CPY => Emu6502.CPY | .JMP => Emu6502.JMP | .JSR => Emu6502.JSR
  | .LDA => Emu6502.LDA | .LDX => Emu6502.LDX | .LDY => Emu6502.LDY
  | .LSR => Emu6502.LSR

/-- One operation on a constructed CPU: an opcode handler applied to a
resolved operand, or a call of `setFlag`. -/
inductive Step where
  | unit (op : Opcode) (o : OP_CODE_INFO)
  | flag (name : FLAG) (val : Int)

/-- The effect of one operation. -/
def Step.run : Step → CPU → Except Fault CPU
  | .unit op o, c => op.exec c o
  | .flag name val, c => setFlag c name val

/-- The effect of a sequence of operations, from left to right; it stops at
the first operation that does not return. -/
def runSteps : List Step → CPU → Except Fault CPU
  | [], c => .ok c
  | s :: rest, c =>
    match s.run c with
    | .ok c1 => runSteps rest c1
    | .error e => .error e

/-! ## Bit-level facts, by enumeration of the byte -/

theorem int8_t.forall_of_fin {P : Int → Prop}
    (h : ∀ i : Fin 256, P ((i.val : Int) - 128)) (x : int8_t) : P x.val := by
  have hx : P ((((x.val + 128).toNat : Nat) : Int) - 128) :=
    h ⟨(x.val + 128).toNat, by have := x.lo; have := x.hi; omega⟩
  have e : (((x.val + 128).toNat : Nat) : Int) - 128 = x.val := by
    have := x.lo; omega
  rwa [e] at hx

set_option maxRecDepth 100000 in
theorem flag_test_fin : ∀ i : Fin 256, ∀ k : Fin 8,
    (if band ((i.val : Int) - 128) (shl 1 (k.val : Int)) ≠ 0 then (1 : Int) else 0)
      = bitAt ((i.val : Int) - 128) k.val := by
  decide!

theorem flag_test (x : int8_t) (k : Nat) (hk : k < 8) :
    (if band x.val (shl 1 (k : Int)) ≠ 0 then (1 : Int) else 0) = bitAt x.val k :=
  int8_t.forall_of_fin (P := fun s =>
    (if band s (shl 1 (k : Int)) ≠ 0 then (1 : Int) else 0) = bitAt s k)
    (fun i => flag_test_fin i ⟨k, hk⟩) x

set_option maxRecDepth 100000 in
theorem bit_update_fin : ∀ i : Fin 256, ∀ k : Fin 8, ∀ j : Fin 8, ∀ v : Fin 2,
    bitAt (wrap8 (bor (band ((i.val : Int) - 128) (bnot (shl 1 (k.val : Int))))
                      (shl (v.val : Int) (k.val : Int)))) j.val
      = if j = k then (v.val : Int) else bitAt ((i.val : Int) - 128) j.val := by
  decide!

theorem bit_update (x : int8_t) (k j : Nat) (hk : k < 8) (hj : j < 8) (v : Int)
    (hv : v = 0 ∨ v = 1) :
    bitAt (wrap8 (bor (band x.val (bnot (shl 1 (k : Int)))) (shl v (k : Int)))) j
      = if j = k then v else bitAt x.val j := by
  have hfin := fun (w : Fin 2) => int8_t.forall_of_fin (P := fun s =>
    bitAt (wrap8 (bor (band s (bnot (shl 1 (k : Int)))) (shl (w.val : Int) (k : Int)))) j
      = if j = k then (w.val : Int) else bitAt s j)
    (fun i => by
      have := bit_update_fin i ⟨k, hk⟩ ⟨j, hj⟩ w
      simpa [Fin.ext_iff] using this) x
  rcases hv with rfl | rfl
  · exact hfin 0
  · exact hfin 1

theorem bitAt_range (x : Int) (k : Nat) : bitAt x k = 0 ∨ bitAt x k = 1 := by
  unfold bitAt; omega

theorem wrap8_bit (v : Int) (hv : v = 0 ∨ v = 1) : wrap8 v = v := by
  unfold wrap8; omega

theorem FLAG.toInt_range (f : FLAG) : 0 ≤ f.toInt ∧ f.toInt < 8 := by
  cases f <;> decide

theorem FLAG.bit_val (f : FLAG) : (int8_t.ofInt f.toInt).val = f.toInt := by
  cases f <;> decide

/-! ## The flag accessors -/

/-- Reading a flag other than the reserved one returns the bit of the Status
register at the position of the flag. -/
theorem getFlag_val (c : CPU) (f : FLAG) (hf : f ≠ .NOT_USED_FLAG) :
    ∃ b : int8_t, getFlag c f = .ok b ∧ b.val = statusBit c f.toInt.toNat := by
  refine ⟨_, if_neg hf, ?_⟩
  have hk : f.toInt.toNat < 8 := by have := f.toInt_range; omega
  have hcast : ((f.toInt.toNat : Nat) : Int) = f.toInt := by
    have := f.toInt_range; omega
  have h := flag_test (c.regs .STATUS) f.toInt.toNat hk
  rw [hcast] at h
  show wrap8 _ = _
  rw [h]
  exact wrap8_bit _ (bitAt_range _ _)

/-- The state after writing `0` or `1` to a flag other than the reserved one. -/
theorem setFlag_eq (c : CPU) (f : FLAG) (v : Int) (hf : f ≠ .NOT_USED_FLAG)
    (hv : v = 0 ∨ v = 1) :
    setFlag c f v = .ok { c with
      regs := Function.update c.regs .STATUS
        (int8_t.ofInt (bor (band (c.regs .STATUS).val (bnot (shl 1 f.toInt)))
                           (shl v f.toInt))) } := by
  have hr := f.toInt_range
  have hb : (int8_t.ofInt f.toInt).val = f.toInt := f.bit_val
  have hw : (int8_t.ofInt v).val = v := wrap8_bit v hv
  unfold setFlag setRegBit
  rw [if_neg hf, if_neg, if_neg, hb, hw]
  · rw [hw]; exact not_not.mpr hv
  · rw [hb]; exact not_not.mpr ⟨by omega, by omega⟩

/-- Writing `0` or `1` to a flag other than the reserved one returns, and
changes that bit of the Status register and nothing else. -/
theorem setFlag_ok (c : CPU) (f : FLAG) (v : Int) (hf : f ≠ .NOT_USED_FLAG)
    (hv : v = 0 ∨ v = 1) :
    ∃ c1, setFlag c f v = .ok c1 ∧ c1.PC = c.PC ∧
      c1.addressSpace = c.addressSpace ∧
      (∀ r, r ≠ .STATUS → c1.regs r = c.regs r) ∧
      (∀ j, j < 8 →
        statusBit c1 j = if j = f.toInt.toNat then v else statusBit c j) := by
  have hr := f.toInt_range
  have hk : f.toInt.toNat < 8 := by omega
  have hcast : ((f.toInt.toNat : Nat) : Int) = f.toInt := by omega
  refine ⟨_, setFlag_eq c f v hf hv, rfl, rfl, ?_, ?_⟩
  · intro r hr
    simp [Function.update, hr]
  · intro j hj
    have h := bit_update (c.regs .STATUS) f.toInt.toNat j hk hj v hv
    rw [hcast] at h
    simpa [statusBit, Function.update, int8_t.ofInt] using h

theorem setSign_ok (c : CPU) (val : int8_t) :
    ∃ c1, setSign c val = .ok c1 ∧ c1.PC = c.PC ∧
      c1.addressSpace = c.addressSpace ∧
      (∀ r, r ≠ .STATUS → c1.regs r = c.regs r) ∧
      (∀ j, j < 8 → statusBit c1 j =
        if j = 7 then (if band val.val 0x80 ≠ 0 then 1 else 0) else statusBit c j) := by
  have hv : (if band val.val 0x80 ≠ 0 then (1 : Int) else 0) = 0 ∨
      (if band val.val 0x80 ≠ 0 then (1 : Int) else 0) = 1 := by
    split <;> simp
  have h := setFlag_ok c .S _ (by decide) hv
  unfold setSign
  simp only [int8_t.ofInt, wrap8_bit _ hv]
  exact h

theorem setZero_ok (c : CPU) (val : int8_t) :
    ∃ c1, setZero c val = .ok c1 ∧ c1.PC = c.PC ∧
      c1.addressSpace = c.addressSpace ∧
      (∀ r, r ≠ .STATUS → c1.regs r = c.regs r) ∧
      (∀ j, j < 8 → statusBit c1 j =
        if j = 1 then (if val.val ≠ 0 then 1 else 0) else statusBit c j) := by
  have hv : (if val.val ≠ 0 then (1 : Int) else 0) = 0 ∨
      (if val.val ≠ 0 then (1 : Int) else 0) = 1 := by
    split <;> simp
  have h := setFlag_ok c .Z _ (by decide) hv
  unfold setZero
  simp only [int8_t.ofInt, wrap8_bit _ hv]
  exact h

theorem setOverflow_ok (c : CPU) (a b val : int8_t) :
    ∃ c1, setOverflow c a b val = .ok c1 ∧ c1.PC = c.PC ∧
      c1.addressSpace = c.addressSpace ∧
      (∀ r, r ≠ .STATUS → c1.regs r = c.regs r) ∧
      (∀ j, j < 8 → statusBit c1 j =
        if j = 6 then
          (if band (bxor a.val b.val) 0x80 = 0 ∧ band (bxor a.val val.val) 0x80 ≠ 0
           then 1 else 0)
        else statusBit c j) := by
  have hv : (if band (bxor a.val b.val) 0x80 = 0 ∧ band (bxor a.val val.val) 0x80 ≠ 0
      then (1 : Int) else 0) = 0 ∨
      (if band (bxor a.val b.val) 0x80 = 0 ∧ band (bxor a.val val.val) 0x80 ≠ 0
      then (1 : Int) else 0) = 1 := by
    split <;> simp
  have h := setFlag_ok c .V _ (by decide) hv
  unfold setOverflow
  simp only [int8_t.ofInt, wrap8_bit _ hv]
  exact h

theorem setCarry_ok (c : CPU) (val : int16_t) :
    ∃ c1, setCarry c val = .ok c1 ∧ c1.PC = c.PC ∧
      c1.addressSpace = c.addressSpace ∧
      (∀ r, r ≠ .STATUS → c1.regs r = c.regs r) ∧
      (∀ j, j < 8 → statusBit c1 j =
        if j = 6 then (if val.val > 0xFF then 1 else 0) else statusBit c j) := by
  have hv : (if val.val > 0xFF then (1 : Int) else 0) = 0 ∨
      (if val.val > 0xFF then (1 : Int) else 0) = 1 := by
    split <;> simp
  have h := setFlag_ok c .V _ (by decide) hv
  unfold setCarry
  simp only [int8_t.ofInt, wrap8_bit _ hv]
  exact h

theorem setCarryBCD_ok (c : CPU) (val : int16_t) :
    ∃ c1, setCarryBCD c val = .ok c1 ∧ c1.PC = c.PC ∧
      c1.addressSpace = c.addressSpace ∧
      (∀ r, r ≠ .STATUS → c1.regs r = c.regs r) ∧
      (∀ j, j < 8 → statusBit c1 j =
        if j = 6 then (if val.val > 0x99 then 1 else 0) else statusBit c j) := by
  have hv : (if val.val > 0x99 then (1 : Int) else 0) = 0 ∨
      (if val.val > 0x99 then (1 : Int) else 0) = 1 := by
    split <;> simp
  have h := setFlag_ok c .V _ (by decide) hv
  unfold setCarryBCD
  simp only [int8_t.ofInt, wrap8_bit _ hv]
  exact h

theorem sign_test (x : int8_t) :
    (if band x.val 0x80 ≠ 0 then (1 : Int) else 0) = bitAt x.val 7 :=
  flag_test x 7 (by decide)

/-- A load handler with target register `t`: the common shape of `LDA`,
`LDX` and `LDY`. -/
theorem load_ok (c : CPU) (v : int8_t) (t : REG) (ht : t ≠ .STATUS) :
    ∃ c1, (do
        let c ← setSign c v
        let c ← setZero c v
        pure (setRegByte c t v) : Except Fault CPU) = .ok c1 ∧
      c1.regs t = v ∧ statusBit c1 7 = bitAt v.val 7 ∧
      c1.PC = c.PC ∧ c1.addressSpace = c.addressSpace ∧
      (∀ r, r ≠ .STATUS → r ≠ t → c1.regs r = c.regs r) ∧
      (∀ j, j < 8 → j ≠ 7 → j ≠ 1 → statusBit c1 j = statusBit c j) := by
  obtain ⟨c1, h1, p1, m1, r1, b1⟩ := setSign_ok c v
  obtain ⟨c2, h2, p2, m2, r2, b2⟩ := setZero_ok c1 v
  have hst : ∀ j, statusBit (setRegByte c2 t v) j = statusBit c2 j := by
    intro j
    simp [statusBit, setRegByte, Function.update, Ne.symm ht]
  refine ⟨setRegByte c2 t v, ?_, ?_, ?_, ?_, ?_, ?_, ?_⟩
  · simp [h1, h2, bind, Except.bind, pure, Except.pure]
  · simp [setRegByte]
  · rw [hst, b2 7 (by decide), b1 7 (by decide)]
    simpa using sign_test v
  · exact p2.trans p1
  · exact m2.trans m1
  · intro r hr hrt
    simp [setRegByte, Function.update, hrt, r2 r hr, r1 r hr]
  · intro j hj h7 h1
    rw [hst, b2 j hj, b1 j hj]
    simp [h7, h1]

/-- A branch taken when flag `f` is set: the common shape of `BCS`, `BEQ`,
`BMI` and `BVS`. -/
theorem branch_if_set (c : CPU) (f : FLAG) (hf : f ≠ .NOT_USED_FLAG)
    (target : int16_t) :
    (do
      let b ← getFlag c f
      if b.val ≠ 0 then pure { c with PC := target } else pure c :
        Except Fault CPU) =
      .ok (if statusBit c f.toInt.toNat = 1 then { c with PC := target } else c) := by
  obtain ⟨b, hb, hbv⟩ := getFlag_val c f hf
  rcases bitAt_range (c.regs .STATUS).val f.toInt.toNat with h | h
  · have h0 : statusBit c f.toInt.toNat = 0 := h
    simp [hb, bind, Except.bind, pure, Except.pure, hbv, h0]
  · have h1 : statusBit c f.toInt.toNat = 1 := h
    simp [hb, bind, Except.bind, pure, Except.pure, hbv, h1]

/-- A branch taken when flag `f` is clear: the common shape of `BCC`, `BNE`,
`BPL` and `BVC`. -/
theorem branch_if_clear (c : CPU) (f : FLAG) (hf : f ≠ .NOT_USED_FLAG)
    (target : int16_t) :
    (do
      let b ← getFlag c f
      if ¬ (b.val ≠ 0) then pure { c with PC := target } else pure c :
        Except Fault CPU) =
      .ok (if statusBit c f.toInt.toNat = 0 then { c with PC := target } else c) := by
  obtain ⟨b, hb, hbv⟩ := getFlag_val c f hf
  rcases bitAt_range (c.regs .STATUS).val f.toInt.toNat with h | h
  · have h0 : statusBit c f.toInt.toNat = 0 := h
    simp [hb, bind, Except.bind, pure, Except.pure, hbv, h0]
  · have h1 : statusBit c f.toInt.toNat = 1 := h
    simp [hb, bind, Except.bind, pure, Except.pure, hbv, h1]

/-- The frame of a state that is either `c` with a new program counter or
`c` itself, with the taken and the not taken case. -/
theorem frame_of_branch_eq (c : CPU) (r : Except Fault CPU) (p : Prop)
    [Decidable p] (target : int16_t)
    (h : r = .ok (if p then { c with PC := target } else c)) :
    ∃ c1, r = .ok c1 ∧ c1.regs = c.regs ∧ c1.addressSpace = c.addressSpace ∧
      (¬ p → c1 = c) ∧ (p → c1 = { c with PC := target }) := by
  refine ⟨_, h, ?_, ?_, ?_, ?_⟩
  · split <;> rfl
  · split <;> rfl
  · intro hp; rw [if_neg hp]
  · intro hp; rw [if_pos hp]

/-! ## Claims -/

/-- C1. Binary-mode `ADC`: from every state whose Decimal flag is clear, and
for every resolved operand, `ADC` returns, and the unsigned reading of the
Accumulator afterwards is `(a + m + c) mod 256`, where `a` and `m` are the
unsigned readings of the Accumulator and of the operand and `c` is the Carry
bit before. -/
theorem ADC_binary_accumulator (c : CPU) (o : OP_CODE_INFO)
    (hD : statusBit c 3 = 0) :
    ∃ c1, ADC c o = .ok c1 ∧
      (c1.regs .ACCUM).toU8 =
        ((c.regs .ACCUM).toU8 + o.operand.toU8 + statusBit c 0) % 256 := by
  obtain ⟨carry, hc, hcv⟩ := getFlag_val c .C (by decide)
  obtain ⟨c1, h1, -, -, -, hb1⟩ := setZero_ok c
    (int8_t.ofInt (int16_t.ofInt (carry.val + (c.regs .ACCUM).val + o.operand.val)).val)
  obtain ⟨d, hd, hdv⟩ := getFlag_val c1 .D (by decide)
  have hd0 : d.val = 0 := by
    rw [hdv]
    have := hb1 3 (by decide)
    simp at this
    rw [show FLAG.D.toInt.toNat = 3 from rfl, this, hD]
  obtain ⟨c2, h2, -, -, -, -⟩ := setSign_ok c1
    (int8_t.ofInt (int16_t.ofInt (carry.val + (c.regs .ACCUM).val + o.operand.val)).val)
  obtain ⟨c3, h3, -, -, -, -⟩ := setOverflow_ok c2 (c.regs .ACCUM) o.operand
    (int8_t.ofInt (int16_t.ofInt (carry.val + (c.regs .ACCUM).val + o.operand.val)).val)
  obtain ⟨c4, h4, -, -, -, -⟩ := setCarry_ok c3
    (int16_t.ofInt (carry.val + (c.regs .ACCUM).val + o.operand.val))
  refine ⟨setRegByte c4 .ACCUM
    (int8_t.ofInt (int16_t.ofInt (carry.val + (c.regs .ACCUM).val + o.operand.val)).val),
    ?_, ?_⟩
  · simp [ADC, hc, bind, Except.bind, getRegByte, h1, hd, hd0, h2, h3, h4, pure, Except.pure]
  · have hcv0 : carry.val = statusBit c 0 := hcv
    simp only [setRegByte, Function.update, int8_t.toU8, int8_t.ofInt, int16_t.ofInt,
      wrap8, wrap16]
    simp
    rw [hcv0]
    omega

/-- C1, at accumulator `0xF0`, operand `0x20` and carry set: the result is
`0x11`. -/
theorem ADC_binary_accumulator_witness :
    statusBit (mkCPU 0 0x21 0 0xF0 0 0 0) 3 = 0 ∧
    ∃ c1, ADC (mkCPU 0 0x21 0 0xF0 0 0 0) (mkOp 0x20 0 .Immediate) = .ok c1 ∧
      (c1.regs .ACCUM).toU8 =
        (((mkCPU 0 0x21 0 0xF0 0 0 0).regs .ACCUM).toU8
          + (mkOp 0x20 0 .Immediate).operand.toU8
          + statusBit (mkCPU 0 0x21 0 0xF0 0 0 0) 0) % 256 :=
  ⟨by decide,
   ADC_binary_accumulator (mkCPU 0 0x21 0 0xF0 0 0 0) (mkOp 0x20 0 .Immediate)
     (by decide)⟩

/-- C2 (code defect). Binary-mode `ADC` at the inputs of the specification:
accumulator `0x50`, operand `0x50`, carry clear gives `0xA0` with Sign set, but
Overflow is left clear, because `setCarry` writes the Overflow bit after
`setOverflow`; and accumulator `0xFF`, operand `0x01` (unsigned sum `0x100`)
leaves Carry clear, because no statement of `ADC` writes the Carry bit. -/
theorem ADC_binary_flags_diverge :
    regAfter (ADC (mkCPU 0 0x20 0 0x50 0 0 0) (mkOp 0x50 0 .Immediate)) .ACCUM
      = some 0xA0 ∧
    bitAfter (ADC (mkCPU 0 0x20 0 0x50 0 0 0) (mkOp 0x50 0 .Immediate)) 7 = some 1 ∧
    bitAfter (ADC (mkCPU 0 0x20 0 0x50 0 0 0) (mkOp 0x50 0 .Immediate)) 6 = some 0 ∧
    bitAfter (ADC (mkCPU 0 0x20 0 0x50 0 0 0) (mkOp 0x50 0 .Immediate)) 0 = some 0 ∧
    regAfter (ADC (mkCPU 0 0x20 0 0xFF 0 0 0) (mkOp 0x01 0 .Immediate)) .ACCUM
      = some 0x00 ∧
    bitAfter (ADC (mkCPU 0 0x20 0 0xFF 0 0 0) (mkOp 0x01 0 .Immediate)) 0 = some 0 := by
  decide

/-- C3 (code defect). Decimal-mode `ADC` with accumulator `0x99`, operand `0x01`
and carry clear (99 + 1) leaves `0xA0` in the accumulator and Carry clear,
where packed BCD asks for `0x00` and Carry set; with accumulator `0x50` and
operand `0x50` (50 + 50) the accumulator is `0x00` but Carry is clear and the
carry-out is in the Overflow bit. -/
theorem ADC_decimal_diverge :
    regAfter (ADC (mkCPU 0 0x28 0 0x99 0 0 0) (mkOp 0x01 0 .Immediate)) .ACCUM
      = some 0xA0 ∧
    bitAfter (ADC (mkCPU 0 0x28 0 0x99 0 0 0) (mkOp 0x01 0 .Immediate)) 0 = some 0 ∧
    regAfter (ADC (mkCPU 0 0x28 0 0x50 0 0 0) (mkOp 0x50 0 .Immediate)) .ACCUM
      = some 0x00 ∧
    bitAfter (ADC (mkCPU 0 0x28 0 0x50 0 0 0) (mkOp 0x50 0 .Immediate)) 0 = some 0 ∧
    bitAfter (ADC (mkCPU 0 0x28 0 0x50 0 0 0) (mkOp 0x50 0 .Immediate)) 6 = some 1 ∧
    regAfter (ADC (mkCPU 0 0x28 0 0x09 0 0 0) (mkOp 0x01 0 .Immediate)) .ACCUM
      = some 0x10 := by
  decide

/-- C4 (code defect). `LDA` of `0x00` leaves Zero clear and `LDA` of `0x80`
leaves Zero set; the same inversion shows in `LDX`, `LDY`, `AND`, `ASL` and
`LSR`, which all go through `setZero`. -/
theorem zero_flag_inverted :
    bitAfter (LDA (mkCPU 0 0x20 0 0 0 0 0) (mkOp 0x00 0 .Immediate)) 1 = some 0 ∧
    bitAfter (LDA (mkCPU 0 0x20 0 0 0 0 0) (mkOp 0x80 0 .Immediate)) 1 = some 1 ∧
    bitAfter (LDX (mkCPU 0 0x20 0 0 0 0 0) (mkOp 0x00 0 .Immediate)) 1 = some 0 ∧
    bitAfter (LDY (mkCPU 0 0x20 0 0 0 0 0) (mkOp 0x00 0 .Immediate)) 1 = some 0 ∧
    bitAfter (AND (mkCPU 0 0x20 0 0x0F 0 0 0) (mkOp 0xF0 0 .Immediate)) 1 = some 0 ∧
    bitAfter (ASL (mkCPU 0 0x20 0 0 0 0 0) (mkOp 0x80 0 .Accumulator)) 1 = some 0 ∧
    bitAfter (LSR (mkCPU 0 0x20 0 0 0 0 0) (mkOp 0x01 0 .Accumulator)) 1 = some 0 := by
  decide

/-- C5. Load family: for every state and resolved operand, `LDA`, `LDX` and
`LDY` return; the loaded register (Accumulator, IndexX, IndexY) holds the
operand, the Sign bit is bit 7 of the operand, and the program counter, the
memory, every register other than Status and the loaded one, and every Status
bit other than Sign (7) and Zero (1) are as before. -/
theorem load_family_frame (c : CPU) (o : OP_CODE_INFO) :
    (∃ c1, LDA c o = .ok c1 ∧
      c1.regs .ACCUM = o.operand ∧ statusBit c1 7 = bitAt o.operand.val 7 ∧
      c1.PC = c.PC ∧ c1.addressSpace = c.addressSpace ∧
      (∀ r, r ≠ .STATUS → r ≠ .ACCUM → c1.regs r = c.regs r) ∧
      (∀ j, j < 8 → j ≠ 7 → j ≠ 1 → statusBit c1 j = statusBit c j)) ∧
    (∃ c1, LDX c o = .ok c1 ∧
      c1.regs .IND_X = o.operand ∧ statusBit c1 7 = bitAt o.operand.val 7 ∧
      c1.PC = c.PC ∧ c1.addressSpace = c.addressSpace ∧
      (∀ r, r ≠ .STATUS → r ≠ .IND_X → c1.regs r = c.regs r) ∧
      (∀ j, j < 8 → j ≠ 7 → j ≠ 1 → statusBit c1 j = statusBit c j)) ∧
    (∃ c1, LDY c o = .ok c1 ∧
      c1.regs .IND_Y = o.operand ∧ statusBit c1 7 = bitAt o.operand.val 7 ∧
      c1.PC = c.PC ∧ c1.addressSpace = c.addressSpace ∧
      (∀ r, r ≠ .STATUS → r ≠ .IND_Y → c1.regs r = c.regs r) ∧
      (∀ j, j < 8 → j ≠ 7 → j ≠ 1 → statusBit c1 j = statusBit c j)) :=
  ⟨load_ok c o.operand .ACCUM (by decide), load_ok c o.operand .IND_X (by decide),
   load_ok c o.operand .IND_Y (by decide)⟩

/-- C6 (code defect). `CMP` with accumulator `0x10` against the byte `0x10`
stored at address `0x0010` returns with Carry set but Zero clear; against the
same byte stored at address `0x0200` it stops on the assertion of `setRegBit`,
and so does `CMP` of `0x50` against `0x10` at address `0x0010`. -/
theorem CMP_diverge :
    bitAfter (CMP (mkCPU 0 0x20 0 0x10 0 0 0x10) (mkOp 0x10 0x0010 .Absolute)) 0
      = some 1 ∧
    bitAfter (CMP (mkCPU 0 0x20 0 0x10 0 0 0x10) (mkOp 0x10 0x0010 .Absolute)) 1
      = some 0 ∧
    CMP (mkCPU 0 0x20 0 0x10 0 0 0x10) (mkOp 0x10 0x0200 .Absolute)
      = .error .assertion ∧
    CMP (mkCPU 0 0x20 0 0x50 0 0 0x10) (mkOp 0x10 0x0010 .Absolute)
      = .error .assertion := by
  refine ⟨by decide, by decide, rfl, rfl⟩

/-- C7 (code defect). `BIT` with accumulator `0x00` and tested byte `0x00` at
address `0x0000` returns with Zero clear although `t AND a = 0`; with
accumulator `0x40` it stops on the assertion of `setRegBit`. -/
theorem BIT_diverge :
    bitAfter (BIT (mkCPU 0 0x20 0 0x00 0 0 0x00) (mkOp 0x00 0x0000 .Absolute)) 1
      = some 0 ∧
    BIT (mkCPU 0 0x20 0 0x40 0 0 0x00) (mkOp 0x00 0x0000 .Absolute)
      = .error .assertion := by
  refine ⟨by decide, rfl⟩

/-- C8. Branches: for every state and resolved operand, each of `BCC`, `BCS`,
`BEQ`, `BNE`, `BMI`, `BPL`, `BVC`, `BVS` returns; the registers (Status
included) and the memory are as before, so that the program counter is the
only component that can differ; when the tested flag does not match the
condition (Carry clear, Carry set, Zero set, Zero clear, Sign set, Sign clear,
Overflow clear, Overflow set) the whole state is as before; and when it
matches, the state is the one before with the program counter written: with
the operand byte in `BCC`, `BCS`, `BEQ`, with the address in the other five. -/
theorem branch_frame (c : CPU) (o : OP_CODE_INFO) :
    (∃ c1, BCC c o = .ok c1 ∧ c1.regs = c.regs ∧
      c1.addressSpace = c.addressSpace ∧ (¬ statusBit c 0 = 0 → c1 = c) ∧
      (statusBit c 0 = 0 → c1 = { c with PC := int16_t.ofInt o.operand.val })) ∧
    (∃ c1, BCS c o = .ok c1 ∧ c1.regs = c.regs ∧
      c1.addressSpace = c.addressSpace ∧ (¬ statusBit c 0 = 1 → c1 = c) ∧
      (statusBit c 0 = 1 → c1 = { c with PC := int16_t.ofInt o.operand.val })) ∧
    (∃ c1, BEQ c o = .ok c1 ∧ c1.regs = c.regs ∧
      c1.addressSpace = c.addressSpace ∧ (¬ statusBit c 1 = 1 → c1 = c) ∧
      (statusBit c 1 = 1 → c1 = { c with PC := int16_t.ofInt o.operand.val })) ∧
    (∃ c1, BNE c o = .ok c1 ∧ c1.regs = c.regs ∧
      c1.addressSpace = c.addressSpace ∧ (¬ statusBit c 1 = 0 → c1 = c) ∧
      (statusBit c 1 = 0 → c1 = { c with PC := o.address })) ∧
    (∃ c1, BMI c o = .ok c1 ∧ c1.regs = c.regs ∧
      c1.addressSpace = c.addressSpace ∧ (¬ statusBit c 7 = 1 → c1 = c) ∧
      (statusBit c 7 = 1 → c1 = { c with PC := o.address })) ∧
    (∃ c1, BPL c o = .ok c1 ∧ c1.regs = c.regs ∧
      c1.addressSpace = c.addressSpace ∧ (¬ statusBit c 7 = 0 → c1 = c) ∧
      (statusBit c 7 = 0 → c1 = { c with PC := o.address })) ∧
    (∃ c1, BVC c o = .ok c1 ∧ c1.regs = c.regs ∧
      c1.addressSpace = c.addressSpace ∧ (¬ statusBit c 6 = 0 → c1 = c) ∧
      (statusBit c 6 = 0 → c1 = { c with PC := o.address })) ∧
    (∃ c1, BVS c o = .ok c1 ∧ c1.regs = c.regs ∧
      c1.addressSpace = c.addressSpace ∧ (¬ statusBit c 6 = 1 → c1 = c) ∧
      (statusBit c 6 = 1 → c1 = { c with PC := o.address })) :=
  ⟨frame_of_branch_eq c _ _ _ (branch_if_clear c .C (by decide) _),
   frame_of_branch_eq c _ _ _ (branch_if_set c .C (by decide) _),
   frame_of_branch_eq c _ _ _ (branch_if_set c .Z (by decide) _),
   frame_of_branch_eq c _ _ _ (branch_if_clear c .Z (by decide) _),
   frame_of_branch_eq c _ _ _ (branch_if_set c .S (by decide) _),
   frame_of_branch_eq c _ _ _ (branch_if_clear c .S (by decide) _),
   frame_of_branch_eq c _ _ _ (branch_if_clear c .V (by decide) _),
   frame_of_branch_eq c _ _ _ (branch_if_set c .V (by decide) _)⟩

/-- C9 (code defect). With operand byte `0x34` and effective address `0x1234`,
`JMP`, and `BCC`, `BCS`, `BEQ` when taken, leave the program counter at `0x34`,
the operand byte, while `BMI`, when taken, leaves it at `0x1234`. -/
theorem control_target_diverge :
    pcAfter (JMP (mkCPU 0 0x20 0 0 0 0 0) (mkOp 0x34 0x1234 .Absolute)) = some 0x34 ∧
    pcAfter (BCC (mkCPU 0 0x20 0 0 0 0 0) (mkOp 0x34 0x1234 .Relative)) = some 0x34 ∧
    pcAfter (BCS (mkCPU 0 0x21 0 0 0 0 0) (mkOp 0x34 0x1234 .Relative)) = some 0x34 ∧
    pcAfter (BEQ (mkCPU 0 0x22 0 0 0 0 0) (mkOp 0x34 0x1234 .Relative)) = some 0x34 ∧
    pcAfter (BMI (mkCPU 0 0xA0 0 0 0 0 0) (mkOp 0x34 0x1234 .Relative))
      = some 0x1234 := by
  decide

/-- C10 (code defect). `ASL` of `0x80` in Accumulator mode, from a state with
Carry clear, leaves the accumulator `0x00` and Sign clear, and leaves Carry
clear: `setCarry` writes the Overflow bit, and the shifted signed operand never
exceeds `0xFF`. From a state with Carry and Overflow set, `ASL` of `0x01` leaves
Carry set and clears Overflow. -/
theorem ASL_carry_diverge :
    regAfter (ASL (mkCPU 0 0x20 0 0 0 0 0) (mkOp 0x80 0 .Accumulator)) .ACCUM
      = some 0x00 ∧
    bitAfter (ASL (mkCPU 0 0x20 0 0 0 0 0) (mkOp 0x80 0 .Accumulator)) 7 = some 0 ∧
    bitAfter (ASL (mkCPU 0 0x20 0 0 0 0 0) (mkOp 0x80 0 .Accumulator)) 0 = some 0 ∧
    bitAfter (ASL (mkCPU 0 0x61 0 0 0 0 0) (mkOp 0x01 0 .Accumulator)) 0 = some 1 ∧
    bitAfter (ASL (mkCPU 0 0x61 0 0 0 0 0) (mkOp 0x01 0 .Accumulator)) 6 = some 0 := by
  decide

/-! ## What a returning call tells -/

theorem bind_ok {α β : Type} {x : Except Fault α} {f : α → Except Fault β} {b : β}
    (h : (x >>= f) = .ok b) : ∃ a, x = .ok a ∧ f a = .ok b := by
  cases x with
  | error e => simp [bind, Except.bind] at h
  | ok a => exact ⟨a, rfl, h⟩

theorem int8_t.ofInt_wrap8 (v : Int) : int8_t.ofInt (wrap8 v) = int8_t.ofInt v := by
  have : wrap8 (wrap8 v) = wrap8 v := by unfold wrap8; omega
  simp [int8_t.ofInt, this]

/-- A call of `setFlag` that returns was given a flag other than the reserved
one and a value that narrows to `0` or `1`, and it changed that bit of the
Status register and nothing else. -/
theorem setFlag_inv {c c1 : CPU} {f : FLAG} {v : Int} (h : setFlag c f v = .ok c1) :
    f ≠ .NOT_USED_FLAG ∧ (wrap8 v = 0 ∨ wrap8 v = 1) ∧ c1.PC = c.PC ∧
      c1.addressSpace = c.addressSpace ∧
      (∀ r, r ≠ .STATUS → c1.regs r = c.regs r) ∧
      (∀ j, j < 8 →
        statusBit c1 j = if j = f.toInt.toNat then wrap8 v else statusBit c j) := by
  have hf : f ≠ .NOT_USED_FLAG := by
    intro hf; simp [setFlag, hf] at h
  have hv : wrap8 v = 0 ∨ wrap8 v = 1 := by
    by_contra hv
    have hv2 : ¬ ((int8_t.ofInt v).val = 0 ∨ (int8_t.ofInt v).val = 1) := hv
    have hb : (int8_t.ofInt f.toInt).val > -1 ∧ (int8_t.ofInt f.toInt).val < 8 := by
      rw [f.bit_val]; have := f.toInt_range; omega
    simp [setFlag, hf, setRegBit, hb, hv2] at h
  have hw : setFlag c f (wrap8 v) = .ok c1 := by
    rw [← h]; simp only [setFlag, int8_t.ofInt_wrap8]
  obtain ⟨c2, h2, p2, m2, r2, b2⟩ := setFlag_ok c f (wrap8 v) hf hv
  rw [hw] at h2
  cases h2
  exact ⟨hf, hv, p2, m2, r2, b2⟩

theorem setFlag_keeps5 {c c1 : CPU} {f : FLAG} {v : Int} (h : setFlag c f v = .ok c1) :
    statusBit c1 5 = statusBit c 5 := by
  obtain ⟨hf, -, -, -, -, hb⟩ := setFlag_inv h
  rw [hb 5 (by decide), if_neg]
  cases f <;> first | decide | exact absurd rfl hf

theorem setRegByte_keeps5 (c : CPU) (name : REG) (v : int8_t) (hn : name ≠ .STATUS) :
    statusBit (setRegByte c name v) 5 = statusBit c 5 := by
  simp [statusBit, setRegByte, Function.update, Ne.symm hn]

theorem write_keeps5 {c c1 : CPU} {a : int16_t} {v : int8_t} (h : write c a v = .ok c1) :
    statusBit c1 5 = statusBit c 5 := by
  unfold write at h
  split at h
  · cases h; rfl
  · cases h

theorem ADC_keeps5 {c c1 : CPU} {o : OP_CODE_INFO} (h : ADC c o = .ok c1) :
    statusBit c1 5 = statusBit c 5 := by
  unfold ADC at h
  obtain ⟨carry, -, h⟩ := bind_ok h
  obtain ⟨c2, h2, h⟩ := bind_ok h
  obtain ⟨d, -, h⟩ := bind_ok h
  have e2 := setFlag_keeps5 h2
  split at h
  · obtain ⟨c3, h3, h⟩ := bind_ok h
    obtain ⟨c4, h4, h⟩ := bind_ok h
    obtain ⟨c5, h5, h⟩ := bind_ok h
    cases h
    rw [setRegByte_keeps5 _ _ _ (by decide), setFlag_keeps5 h5, setFlag_keeps5 h4,
      setFlag_keeps5 h3, e2]
  · obtain ⟨c3, h3, h⟩ := bind_ok h
    obtain ⟨c4, h4, h⟩ := bind_ok h
    obtain ⟨c5, h5, h⟩ := bind_ok h
    cases h
    rw [setRegByte_keeps5 _ _ _ (by decide), setFlag_keeps5 h5, setFlag_keeps5 h4,
      setFlag_keeps5 h3, e2]

theorem AND_keeps5 {c c1 : CPU} {o : OP_CODE_INFO} (h : AND c o = .ok c1) :
    statusBit c1 5 = statusBit c 5 := by
  unfold AND at h
  obtain ⟨c2, h2, h⟩ := bind_ok h
  obtain ⟨c3, h3, h⟩ := bind_ok h
  cases h
  rw [setRegByte_keeps5 _ _ _ (by decide), setFlag_keeps5 h3, setFlag_keeps5 h2]

theorem ASL_keeps5 {c c1 : CPU} {o : OP_CODE_INFO} (h : ASL c o = .ok c1) :
    statusBit c1 5 = statusBit c 5 := by
  unfold ASL at h
  obtain ⟨c2, h2, h⟩ := bind_ok h
  obtain ⟨c3, h3, h⟩ := bind_ok h
  obtain ⟨c4, h4, h⟩ := bind_ok h
  have e : statusBit c4 5 = statusBit c 5 := by
    rw [setFlag_keeps5 h4, setFlag_keeps5 h3, setFlag_keeps5 h2]
  split at h
  · cases h
    rw [setRegByte_keeps5 _ _ _ (by decide), e]
  · rw [write_keeps5 h, e]

theorem LSR_keeps5 {c c1 : CPU} {o : OP_CODE_INFO} (h : LSR c o = .ok c1) :
    statusBit c1 5 = statusBit c 5 := by
  unfold LSR at h
  obtain ⟨c2, h2, h⟩ := bind_ok h
  obtain ⟨c3, h3, h⟩ := bind_ok h
  obtain ⟨c4, h4, h⟩ := bind_ok h
  have e : statusBit c4 5 = statusBit c 5 := by
    rw [setFlag_keeps5 h4, setFlag_keeps5 h3, setFlag_keeps5 h2]
  split at h
  · cases h
    rw [setRegByte_keeps5 _ _ _ (by decide), e]
  · rw [write_keeps5 h, e]

theorem BIT_keeps5 {c c1 : CPU} {o : OP_CODE_INFO} (h : BIT c o = .ok c1) :
    statusBit c1 5 = statusBit c 5 := by
  unfold BIT at h
  obtain ⟨c2, h2, h⟩ := bind_ok h
  obtain ⟨c3, h3, h⟩ := bind_ok h
  rw [setFlag_keeps5 h, setFlag_keeps5 h3, setFlag_keeps5 h2]

theorem compareReg_keeps5 {r : REG} {c c1 : CPU} {o : OP_CODE_INFO}
    (h : compareReg r c o = .ok c1) : statusBit c1 5 = statusBit c 5 := by
  unfold compareReg at h
  obtain ⟨c2, h2, h⟩ := bind_ok h
  obtain ⟨c3, h3, h⟩ := bind_ok h
  rw [setFlag_keeps5 h, setFlag_keeps5 h3, setFlag_keeps5 h2]

theorem load_keeps5 {c c1 : CPU} {v : int8_t} {t : REG} (ht : t ≠ .STATUS)
    (h : (do
        let c ← setSign c v
        let c ← setZero c v
        pure (setRegByte c t v) : Except Fault CPU) = .ok c1) :
    statusBit c1 5 = statusBit c 5 := by
  obtain ⟨c2, h2, h⟩ := bind_ok h
  obtain ⟨c3, h3, h⟩ := bind_ok h
  cases h
  rw [setRegByte_keeps5 _ _ _ ht, setFlag_keeps5 h3, setFlag_keeps5 h2]

theorem branch_keeps5 {c c1 : CPU} {r : Except Fault CPU} {p : Prop} [Decidable p]
    {target : int16_t} (e : r = .ok (if p then { c with PC := target } else c))
    (h : r = .ok c1) : statusBit c1 5 = statusBit c 5 := by
  rw [e] at h
  cases h
  split <;> rfl

/-- Every opcode handler that returns leaves bit 5 of the Status register as
it was. -/
theorem exec_keeps5 {op : Opcode} {c c1 : CPU} {o : OP_CODE_INFO}
    (h : op.exec c o = .ok c1) : statusBit c1 5 = statusBit c 5 := by
  cases op
  case ADC => exact ADC_keeps5 h
  case AND => exact AND_keeps5 h
  case ASL => exact ASL_keeps5 h
  case BCC => exact branch_keeps5 (branch_if_clear c .C (by decide) _) h
  case BCS => exact branch_keeps5 (branch_if_set c .C (by decide) _) h
  case BEQ => exact branch_keeps5 (branch_if_set c .Z (by decide) _) h
  case BIT => exact BIT_keeps5 h
  case BMI => exact branch_keeps5 (branch_if_set c .S (by decide) _) h
  case BNE => exact branch_keeps5 (branch_if_clear c .Z (by decide) _) h
  case BPL => exact branch_keeps5 (branch_if_clear c .S (by decide) _) h
  case BVC => exact branch_keeps5 (branch_if_clear c .V (by decide) _) h
  case BVS => exact branch_keeps5 (branch_if_set c .V (by decide) _) h
  case CLC => exact setFlag_keeps5 (f := .C) (v := 0) h
  case CLD => exact setFlag_keeps5 (f := .D) (v := 0) h
  case CLI => exact setFlag_keeps5 (f := .I) (v := 0) h
  case CLV => exact setFlag_keeps5 (f := .V) (v := 0) h
  case CMP => exact compareReg_keeps5 h
  case CPX => exact compareReg_keeps5 h
  case CPY => exact compareReg_keeps5 h
  case JMP => cases h; rfl
  case JSR => cases h; rfl
  case LDA => exact load_keeps5 (by decide) h
  case LDX => exact load_keeps5 (by decide) h
  case LDY => exact load_keeps5 (by decide) h
  case LSR => exact LSR_keeps5 h

theorem step_keeps5 {s : Step} {c c1 : CPU} (h : s.run c = .ok c1) :
    statusBit c1 5 = statusBit c 5 := by
  cases s with
  | unit op o => exact exec_keeps5 h
  | flag name val => exact setFlag_keeps5 h

theorem runSteps_keeps5 (steps : List Step) :
    ∀ {c c1 : CPU}, runSteps steps c = .ok c1 → statusBit c1 5 = statusBit c 5 := by
  induction steps with
  | nil => intro c c1 h; cases h; rfl
  | cons s rest ih =>
    intro c c1 h
    unfold runSteps at h
    split at h
    · next c2 h2 => rw [ih h, step_keeps5 h2]
    · cases h

/-- The constructor returns, whatever the storage holds, with bit 5 of the
Status register set. -/
theorem getCPU_bit5 (fresh : CPU) :
    ∃ c0, getCPU fresh = .ok c0 ∧ statusBit c0 5 = 1 := by
  have e : setRegBit fresh .STATUS 5 1 =
      .ok { fresh with
        regs := Function.update fresh.regs .STATUS
          (int8_t.ofInt (bor (band (fresh.regs .STATUS).val (bnot (shl 1 5)))
                             (shl 1 5))) } := rfl
  refine ⟨_, e, ?_⟩
  have h := bit_update (fresh.regs .STATUS) 5 5 (by decide) (by decide) 1 (Or.inr rfl)
  simpa [statusBit, Function.update, int8_t.ofInt] using h

/-! ## Clearing a flag twice, and the shifts -/

theorem int8_t.eq_of_val {a b : int8_t} (h : a.val = b.val) : a = b := by
  cases a; cases b; cases h; rfl

set_option maxRecDepth 100000 in
theorem bit_clear_idem_fin : ∀ i : Fin 256, ∀ k : Fin 8,
    wrap8 (bor (band (wrap8 (bor (band ((i.val : Int) - 128)
        (bnot (shl 1 (k.val : Int)))) (shl 0 (k.val : Int))))
      (bnot (shl 1 (k.val : Int)))) (shl 0 (k.val : Int)))
    = wrap8 (bor (band ((i.val : Int) - 128) (bnot (shl 1 (k.val : Int))))
        (shl 0 (k.val : Int))) := by
  decide!

theorem bit_clear_idem (x : int8_t) (k : Nat) (hk : k < 8) :
    wrap8 (bor (band (wrap8 (bor (band x.val (bnot (shl 1 (k : Int))))
        (shl 0 (k : Int)))) (bnot (shl 1 (k : Int)))) (shl 0 (k : Int)))
    = wrap8 (bor (band x.val (bnot (shl 1 (k : Int)))) (shl 0 (k : Int))) :=
  int8_t.forall_of_fin (P := fun s =>
    wrap8 (bor (band (wrap8 (bor (band s (bnot (shl 1 (k : Int))))
        (shl 0 (k : Int)))) (bnot (shl 1 (k : Int)))) (shl 0 (k : Int)))
    = wrap8 (bor (band s (bnot (shl 1 (k : Int)))) (shl 0 (k : Int))))
    (fun i => bit_clear_idem_fin i ⟨k, hk⟩) x

set_option maxRecDepth 100000 in
theorem band_one_fin : ∀ i : Fin 256,
    band ((i.val : Int) - 128) 0x01 = bitAt ((i.val : Int) - 128) 0 := by
  decide!

theorem band_one (x : int8_t) : band x.val 0x01 = bitAt x.val 0 :=
  int8_t.forall_of_fin (P := fun s => band s 0x01 = bitAt s 0) band_one_fin x

/-- Clearing a flag other than the reserved one: the call returns, the bit is
`0`, nothing else changes, and clearing it again changes nothing. -/
theorem clear_ok (c : CPU) (f : FLAG) (hf : f ≠ .NOT_USED_FLAG) :
    ∃ c1, setFlag c f 0 = .ok c1 ∧ statusBit c1 f.toInt.toNat = 0 ∧
      c1.PC = c.PC ∧ c1.addressSpace = c.addressSpace ∧
      (∀ r, r ≠ .STATUS → c1.regs r = c.regs r) ∧
      (∀ j, j < 8 → j ≠ f.toInt.toNat → statusBit c1 j = statusBit c j) ∧
      setFlag c1 f 0 = .ok c1 := by
  have hr := f.toInt_range
  have hk : f.toInt.toNat < 8 := by omega
  have hcast : ((f.toInt.toNat : Nat) : Int) = f.toInt := by omega
  obtain ⟨c1, h1, p1, m1, r1, b1⟩ := setFlag_ok c f 0 hf (Or.inl rfl)
  refine ⟨c1, h1, ?_, p1, m1, r1, ?_, ?_⟩
  · rw [b1 _ hk, if_pos rfl]
  · intro j hj hne
    rw [b1 j hj, if_neg hne]
  · have e1 := setFlag_eq c f 0 hf (Or.inl rfl)
    rw [h1] at e1
    cases e1
    rw [setFlag_eq _ f 0 hf (Or.inl rfl)]
    have hi := bit_clear_idem (c.regs .STATUS) f.toInt.toNat hk
    rw [hcast] at hi
    have hy : int8_t.ofInt (bor (band (int8_t.ofInt (bor (band (c.regs .STATUS).val
          (bnot (shl 1 f.toInt))) (shl 0 f.toInt))).val (bnot (shl 1 f.toInt)))
          (shl 0 f.toInt))
        = int8_t.ofInt (bor (band (c.regs .STATUS).val (bnot (shl 1 f.toInt)))
          (shl 0 f.toInt)) := int8_t.eq_of_val hi
    simp only [Function.update_same, Function.update_idem, hy]

/-- The three flag updates of `ASL` return and change the Status register
only. -/
theorem ASL_flags_ok (c : CPU) (res : int16_t) :
    ∃ c3, (do
        let c ← setCarry c res
        let c ← setSign c (int8_t.ofInt res.val)
        setZero c (int8_t.ofInt res.val) : Except Fault CPU) = .ok c3 ∧
      c3.addressSpace = c.addressSpace ∧ ∀ r, r ≠ .STATUS → c3.regs r = c.regs r := by
  obtain ⟨c1, h1, -, m1, r1, -⟩ := setCarry_ok c res
  obtain ⟨c2, h2, -, m2, r2, -⟩ := setSign_ok c1 (int8_t.ofInt res.val)
  obtain ⟨c3, h3, -, m3, r3, -⟩ := setZero_ok c2 (int8_t.ofInt res.val)
  refine ⟨c3, ?_, ?_, ?_⟩
  · simp [h1, h2, h3, bind, Except.bind]
  · rw [m3, m2, m1]
  · intro r hr
    rw [r3 r hr, r2 r hr, r1 r hr]

/-- The three flag updates of `LSR` return and change the Status register
only. -/
theorem LSR_flags_ok (c : CPU) (operand shifted : int8_t) :
    ∃ c3, (do
        let c ← setFlag c .C (band operand.val 0x01)
        let c ← setSign c shifted
        setZero c shifted : Except Fault CPU) = .ok c3 ∧
      c3.addressSpace = c.addressSpace ∧ ∀ r, r ≠ .STATUS → c3.regs r = c.regs r := by
  have hv : band operand.val 0x01 = 0 ∨ band operand.val 0x01 = 1 := by
    rw [band_one]; exact bitAt_range _ _
  obtain ⟨c1, h1, -, m1, r1, -⟩ := setFlag_ok c .C _ (by decide) hv
  obtain ⟨c2, h2, -, m2, r2, -⟩ := setSign_ok c1 shifted
  obtain ⟨c3, h3, -, m3, r3, -⟩ := setZero_ok c2 shifted
  refine ⟨c3, ?_, ?_, ?_⟩
  · simp [h1, h2, h3, bind, Except.bind]
  · rw [m3, m2, m1]
  · intro r hr
    rw [r3 r hr, r2 r hr, r1 r hr]

/-- The write-back of a shift handler, given the state `c3` after its flag
updates. -/
theorem write_back_ok (c c3 : CPU) (o : OP_CODE_INFO) (res : int8_t)
    (r : Except Fault CPU)
    (hr : r = if o.mode = .Accumulator then .ok (setRegByte c3 .ACCUM res)
              else write c3 o.address res)
    (hm : c3.addressSpace = c.addressSpace)
    (hreg : ∀ r, r ≠ .STATUS → c3.regs r = c.regs r) :
    (o.mode = .Accumulator →
      ∃ c1, r = .ok c1 ∧ c1.regs .ACCUM = res ∧ c1.addressSpace = c.addressSpace) ∧
    (o.mode ≠ .Accumulator →
      (∃ c2, c2.regs .ACCUM = c.regs .ACCUM ∧ c2.addressSpace = c.addressSpace ∧
        r = write c2 o.address res) ∧
      (0 ≤ o.address.val →
        ∃ c1, r = .ok c1 ∧ c1.regs .ACCUM = c.regs .ACCUM ∧
          c1.addressSpace = Function.update c.addressSpace o.address.val.toNat res)) := by
  refine ⟨fun hA => ?_, fun hA => ⟨?_, fun h0 => ?_⟩⟩
  · refine ⟨setRegByte c3 .ACCUM res, by rw [hr, if_pos hA], ?_, hm⟩
    simp [setRegByte]
  · exact ⟨c3, hreg _ (by decide), hm, by rw [hr, if_neg hA]⟩
  · have hb : 0 ≤ o.address.val ∧ o.address.val < 65536 :=
      ⟨h0, by have := o.address.hi; omega⟩
    refine ⟨{ c3 with
        addressSpace := Function.update c3.addressSpace o.address.val.toNat res },
      by rw [hr, if_neg hA, write, if_pos hb], hreg _ (by decide), ?_⟩
    simp [hm]

/-! ## Claims, continued -/

/-- C11 (code defect). `LSR` of `0x80` in Accumulator mode leaves `0xC0` in the
accumulator and Sign set: the operand is a signed `int8_t`, so `>>` copies
bit 7. Carry is bit 0 of the operand, as claimed, and `LSR` of `0x01` gives
`0x00`, Carry set, Sign clear. -/
theorem LSR_sign_diverge :
    regAfter (LSR (mkCPU 0 0x20 0 0 0 0 0) (mkOp 0x80 0 .Accumulator)) .ACCUM
      = some 0xC0 ∧
    bitAfter (LSR (mkCPU 0 0x20 0 0 0 0 0) (mkOp 0x80 0 .Accumulator)) 7 = some 1 ∧
    bitAfter (LSR (mkCPU 0 0x20 0 0 0 0 0) (mkOp 0x80 0 .Accumulator)) 0 = some 0 ∧
    regAfter (LSR (mkCPU 0 0x20 0 0 0 0 0) (mkOp 0x01 0 .Accumulator)) .ACCUM
      = some 0x00 ∧
    bitAfter (LSR (mkCPU 0 0x20 0 0 0 0 0) (mkOp 0x01 0 .Accumulator)) 7 = some 0 ∧
    bitAfter (LSR (mkCPU 0 0x20 0 0 0 0 0) (mkOp 0x01 0 .Accumulator)) 0 = some 1 := by
  decide

/-- C12. Shift write-back: for every state and resolved operand, in
Accumulator mode `ASL` and `LSR` return with their 8-bit result in the
Accumulator and the memory as before; in every other mode each is the call
`write(address, result)` on a state with the Accumulator and the memory as
before, so that, when the signed address is not negative, it returns with
the Accumulator as before and the memory changed at index `address` only,
to the result. The result of `ASL`, read unsigned, is twice the unsigned
operand modulo 256. -/
theorem shift_write_back (c : CPU) (o : OP_CODE_INFO) :
    (int8_t.ofInt (int16_t.ofInt (shl o.operand.val 1)).val).toU8
      = (2 * o.operand.toU8) % 256 ∧
    ((o.mode = .Accumulator →
      ∃ c1, ASL c o = .ok c1 ∧
        c1.regs .ACCUM = int8_t.ofInt (int16_t.ofInt (shl o.operand.val 1)).val ∧
        c1.addressSpace = c.addressSpace) ∧
     (o.mode ≠ .Accumulator →
      (∃ c2, c2.regs .ACCUM = c.regs .ACCUM ∧ c2.addressSpace = c.addressSpace ∧
        ASL c o = write c2 o.address
          (int8_t.ofInt (int16_t.ofInt (shl o.operand.val 1)).val)) ∧
      (0 ≤ o.address.val →
        ∃ c1, ASL c o = .ok c1 ∧ c1.regs .ACCUM = c.regs .ACCUM ∧
          c1.addressSpace = Function.update c.addressSpace o.address.val.toNat
            (int8_t.ofInt (int16_t.ofInt (shl o.operand.val 1)).val)))) ∧
    ((o.mode = .Accumulator →
      ∃ c1, LSR c o = .ok c1 ∧
        c1.regs .ACCUM = int8_t.ofInt (shr o.operand.val 1) ∧
        c1.addressSpace = c.addressSpace) ∧
     (o.mode ≠ .Accumulator →
      (∃ c2, c2.regs .ACCUM = c.regs .ACCUM ∧ c2.addressSpace = c.addressSpace ∧
        LSR c o = write c2 o.address (int8_t.ofInt (shr o.operand.val 1))) ∧
      (0 ≤ o.address.val →
        ∃ c1, LSR c o = .ok c1 ∧ c1.regs .ACCUM = c.regs .ACCUM ∧
          c1.addressSpace = Function.update c.addressSpace o.address.val.toNat
            (int8_t.ofInt (shr o.operand.val 1))))) := by
  refine ⟨?_, ?_, ?_⟩
  · have := o.operand.lo
    have := o.operand.hi
    simp only [int8_t.toU8, int8_t.ofInt, int16_t.ofInt, wrap8, wrap16, shl]
    simp
    omega
  · obtain ⟨c3, h3, m3, r3⟩ := ASL_flags_ok c (int16_t.ofInt (shl o.operand.val 1))
    refine write_back_ok c c3 o _ _ ?_ m3 r3
    obtain ⟨c1, h1, h⟩ := bind_ok h3
    obtain ⟨c2, h2, h⟩ := bind_ok h
    simp [ASL, h1, h2, h, bind, Except.bind, pure, Except.pure]
  · obtain ⟨c3, h3, m3, r3⟩ := LSR_flags_ok c o.operand (int8_t.ofInt (shr o.operand.val 1))
    refine write_back_ok c c3 o _ _ ?_ m3 r3
    obtain ⟨c1, h1, h⟩ := bind_ok h3
    obtain ⟨c2, h2, h⟩ := bind_ok h
    simp [LSR, h1, h2, h, bind, Except.bind, pure, Except.pure]

/-- C13. Flag round trip and frame: for every state, every flag `f` other
than the reserved one and `b` equal to `0` or `1`, `setFlag(f, b)` returns,
`getFlag(f)` on the new state returns `b`, and the program counter, the
memory, every register other than Status and every Status bit other than
the bit of `f` (the reserved bit 5 among them) are as before. -/
theorem flag_round_trip (c : CPU) (f : FLAG) (b : Int)
    (hf : f ≠ .NOT_USED_FLAG) (hb : b = 0 ∨ b = 1) :
    ∃ c1, setFlag c f b = .ok c1 ∧
      (∃ g, getFlag c1 f = .ok g ∧ g.val = b) ∧
      c1.PC = c.PC ∧ c1.addressSpace = c.addressSpace ∧
      (∀ r, r ≠ .STATUS → c1.regs r = c.regs r) ∧
      (∀ j, j < 8 → j ≠ f.toInt.toNat → statusBit c1 j = statusBit c j) ∧
      statusBit c1 5 = statusBit c 5 := by
  have hr := f.toInt_range
  have hk : f.toInt.toNat < 8 := by omega
  obtain ⟨c1, h1, p1, m1, r1, b1⟩ := setFlag_ok c f b hf hb
  obtain ⟨g, hg, hgv⟩ := getFlag_val c1 f hf
  refine ⟨c1, h1, ⟨g, hg, ?_⟩, p1, m1, r1, ?_, setFlag_keeps5 h1⟩
  · rw [hgv, b1 _ hk, if_pos rfl]
  · intro j hj hne
    rw [b1 j hj, if_neg hne]

/-- C13, at the Sign flag (bit 7 of the signed Status byte) and the value
`1`, from Status `0x20`. -/
theorem flag_round_trip_witness :
    FLAG.S ≠ .NOT_USED_FLAG ∧ ((1 : Int) = 0 ∨ (1 : Int) = 1) ∧
    ∃ c1, setFlag (mkCPU 0 0x20 0 0 0 0 0) .S 1 = .ok c1 ∧
      (∃ g, getFlag c1 .S = .ok g ∧ g.val = 1) ∧
      c1.PC = (mkCPU 0 0x20 0 0 0 0 0).PC ∧
      c1.addressSpace = (mkCPU 0 0x20 0 0 0 0 0).addressSpace ∧
      (∀ r, r ≠ .STATUS → c1.regs r = (mkCPU 0 0x20 0 0 0 0 0).regs r) ∧
      (∀ j, j < 8 → j ≠ FLAG.S.toInt.toNat →
        statusBit c1 j = statusBit (mkCPU 0 0x20 0 0 0 0 0) j) ∧
      statusBit c1 5 = statusBit (mkCPU 0 0x20 0 0 0 0 0) 5 :=
  ⟨by decide, by decide,
   flag_round_trip (mkCPU 0 0x20 0 0 0 0 0) .S 1 (by decide) (by decide)⟩

/-- C14. Reserved-bit invariant: `getCPU` returns, whatever the storage it is
given holds, a state whose Status bit 5 is 1; a call of `setFlag` that returns
and every opcode handler that returns leave bit 5 as it was; hence bit 5 is 1
in every state reached from a constructed state by a sequence of opcode
handlers and `setFlag` calls that all return. -/
theorem reserved_bit_invariant :
    (∀ fresh, ∃ c0, getCPU fresh = .ok c0 ∧ statusBit c0 5 = 1) ∧
    (∀ c f v c1, setFlag c f v = .ok c1 → statusBit c1 5 = statusBit c 5) ∧
    (∀ (op : Opcode) c o c1, op.exec c o = .ok c1 → statusBit c1 5 = statusBit c 5) ∧
    (∀ fresh c0 steps c1, getCPU fresh = .ok c0 → runSteps steps c0 = .ok c1 →
      statusBit c1 5 = 1) := by
  refine ⟨getCPU_bit5, fun _ _ _ _ h => setFlag_keeps5 h,
    fun _ _ _ _ h => exec_keeps5 h, ?_⟩
  intro fresh c0 steps c1 h0 h1
  obtain ⟨c0', e0, b0⟩ := getCPU_bit5 fresh
  rw [h0] at e0
  cases e0
  rw [runSteps_keeps5 steps h1, b0]

/-- C15 (code defect). `setFlag` with the values `256` and `257` returns and
writes `0` and `1`: the `int` argument is narrowed to `int8_t` in the call of
`setRegBit`, before the assertion on it. With the value `2`, or with the
reserved flag, `setFlag` stops on the assertion; `getFlag` stops on the
reserved flag and returns on `C`. -/
theorem setFlag_truncates :
    bitAfter (setFlag (mkCPU 0 0x21 0 0 0 0 0) .C 256) 0 = some 0 ∧
    bitAfter (setFlag (mkCPU 0 0x20 0 0 0 0 0) .C 257) 0 = some 1 ∧
    setFlag (mkCPU 0 0x20 0 0 0 0 0) .C 2 = .error .assertion ∧
    setFlag (mkCPU 0 0x20 0 0 0 0 0) .NOT_USED_FLAG 1 = .error .assertion ∧
    getFlag (mkCPU 0 0x20 0 0 0 0 0) .NOT_USED_FLAG = .error .assertion ∧
    byteRead (getFlag (mkCPU 0 0x21 0 0 0 0 0) .C) = some 1 := by
  refine ⟨by decide, by decide, rfl, rfl, rfl, by decide⟩

/-- C16 (code defect). From a state whose reserved bit is set, with the
register compared equal to `0x40` and effective address `0x0000`, each of
`BIT`, `CMP`, `CPX` and `CPY` stops on the assertion of `setRegBit`. -/
theorem handlers_abort :
    statusBit (mkCPU 0 0x20 0 0x40 0x40 0x40 0) 5 = 1 ∧
    BIT (mkCPU 0 0x20 0 0x40 0x40 0x40 0) (mkOp 0 0 .Absolute) = .error .assertion ∧
    CMP (mkCPU 0 0x20 0 0x40 0x40 0x40 0) (mkOp 0 0 .Absolute) = .error .assertion ∧
    CPX (mkCPU 0 0x20 0 0x40 0x40 0x40 0) (mkOp 0 0 .Absolute) = .error .assertion ∧
    CPY (mkCPU 0 0x20 0 0x40 0x40 0x40 0) (mkOp 0 0 .Absolute) = .error .assertion := by
  refine ⟨by decide, rfl, rfl, rfl, rfl⟩

/-- C17 (code defect). The addresses `0x8000` and `0xFFFF`, held in the
`int16_t` parameter, are the indices `-32768` and `-1`: `write` and `read`
index outside the block of 65536 bytes. At address `0x7FFF` a `read` after a
`write` returns the byte written. -/
theorem memory_upper_half_out_of_bounds :
    (int16_t.ofInt 0x8000).val = -32768 ∧
    (int16_t.ofInt 0xFFFF).val = -1 ∧
    write (mkCPU 0 0x20 0 0 0 0 0) (int16_t.ofInt 0x8000) (int8_t.ofInt 0x42)
      = .error .outOfBounds ∧
    read (mkCPU 0 0x20 0 0 0 0 0) (int16_t.ofInt 0x8000) = .error .outOfBounds ∧
    write (mkCPU 0 0x20 0 0 0 0 0) (int16_t.ofInt 0xFFFF) (int8_t.ofInt 0x42)
      = .error .outOfBounds ∧
    read (mkCPU 0 0x20 0 0 0 0 0) (int16_t.ofInt 0xFFFF) = .error .outOfBounds ∧
    memAfter (write (mkCPU 0 0x20 0 0 0 0 0) (int16_t.ofInt 0x7FFF)
      (int8_t.ofInt 0x42)) 0x7FFF = some 0x42 := by
  refine ⟨by decide, by decide, rfl, rfl, rfl, rfl, by decide⟩

/-- C18 (code defect). `JSR` from program counter `0x1235` and stack pointer
`0xFF`, with zeroed memory, operand byte `0x34` and effective address `0x1234`:
the bytes at `0x01FF` and `0x01FE` stay `0x00` and the stack pointer stays
`0xFF`, because `PUSH` has an empty body; the program counter becomes `0x34`,
the operand byte. -/
theorem JSR_pushes_nothing :
    memAfter (JSR (mkCPU 0x1235 0x20 0xFF 0 0 0 0) (mkOp 0x34 0x1234 .Absolute)) 0x01FF
      = some 0x00 ∧
    memAfter (JSR (mkCPU 0x1235 0x20 0xFF 0 0 0 0) (mkOp 0x34 0x1234 .Absolute)) 0x01FE
      = some 0x00 ∧
    regAfter (JSR (mkCPU 0x1235 0x20 0xFF 0 0 0 0) (mkOp 0x34 0x1234 .Absolute)) .STACK
      = some 0xFF ∧
    pcAfter (JSR (mkCPU 0x1235 0x20 0xFF 0 0 0 0) (mkOp 0x34 0x1234 .Absolute))
      = some 0x34 := by
  decide

/-- C19. Clear-flag instructions: for every state and resolved operand, `CLC`,
`CLD`, `CLI` and `CLV` return with Carry (bit 0), Decimal (bit 3),
InterruptDisable (bit 2) and Overflow (bit 6) equal to `0`; the program
counter, the memory, every register other than Status and the other seven
Status bits are as before; and the same instruction applied again returns
the same state. -/
theorem clear_flag_instructions (c : CPU) (o : OP_CODE_INFO) :
    (∃ c1, CLC c o = .ok c1 ∧ statusBit c1 0 = 0 ∧
      c1.PC = c.PC ∧ c1.addressSpace = c.addressSpace ∧
      (∀ r, r ≠ .STATUS → c1.regs r = c.regs r) ∧
      (∀ j, j < 8 → j ≠ 0 → statusBit c1 j = statusBit c j) ∧
      CLC c1 o = .ok c1) ∧
    (∃ c1, CLD c o = .ok c1 ∧ statusBit c1 3 = 0 ∧
      c1.PC = c.PC ∧ c1.addressSpace = c.addressSpace ∧
      (∀ r, r ≠ .STATUS → c1.regs r = c.regs r) ∧
      (∀ j, j < 8 → j ≠ 3 → statusBit c1 j = statusBit c j) ∧
      CLD c1 o = .ok c1) ∧
    (∃ c1, CLI c o = .ok c1 ∧ statusBit c1 2 = 0 ∧
      c1.PC = c.PC ∧ c1.addressSpace = c.addressSpace ∧
      (∀ r, r ≠ .STATUS → c1.regs r = c.regs r) ∧
      (∀ j, j < 8 → j ≠ 2 → statusBit c1 j = statusBit c j) ∧
      CLI c1 o = .ok c1) ∧
    (∃ c1, CLV c o = .ok c1 ∧ statusBit c1 6 = 0 ∧
      c1.PC = c.PC ∧ c1.addressSpace = c.addressSpace ∧
      (∀ r, r ≠ .STATUS → c1.regs r = c.regs r) ∧
      (∀ j, j < 8 → j ≠ 6 → statusBit c1 j = statusBit c j) ∧
      CLV c1 o = .ok c1) :=
  ⟨clear_ok c .C (by decide), clear_ok c .D (by decide),
   clear_ok c .I (by decide), clear_ok c .V (by decide)⟩

/-- C20 (code defect). `getCPU` on storage that holds program counter `0x1234`,
Status `0xC1`, the other registers `0x11`, `0x22`, `0x33`, `0x44` and memory
bytes `0x55` returns a state with program counter `0x1234`, Status `0xE1`, the
other registers and the memory as found: only bit 5 of Status is written. -/
theorem getCPU_keeps_garbage :
    pcAfter (getCPU (mkCPU 0x1234 0xC1 0x11 0x22 0x33 0x44 0x55)) = some 0x1234 ∧
    regAfter (getCPU (mkCPU 0x1234 0xC1 0x11 0x22 0x33 0x44 0x55)) .STATUS = some 0xE1 ∧
    regAfter (getCPU (mkCPU 0x1234 0xC1 0x11 0x22 0x33 0x44 0x55)) .STACK = some 0x11 ∧
    regAfter (getCPU (mkCPU 0x1234 0xC1 0x11 0x22 0x33 0x44 0x55)) .ACCUM = some 0x22 ∧
    regAfter (getCPU (mkCPU 0x1234 0xC1 0x11 0x22 0x33 0x44 0x55)) .IND_X = some 0x33 ∧
    regAfter (getCPU (mkCPU 0x1234 0xC1 0x11 0x22 0x33 0x44 0x55)) .IND_Y = some 0x44 ∧
    memAfter (getCPU (mkCPU 0x1234 0xC1 0x11 0x22 0x33 0x44 0x55)) 0 = some 0x55 := by
  decide

end Emu6502
